import Mathlib

/-!
Verification of the `aych-delay` stereo delay effect.

This file shallowly embeds the repository's code:
  * `src/src/filters/mod.rs`        — `Mode`, the `Filter` trait
  * `src/src/filters/tptonepole.rs` — `get_coefficient`, `TPTOnePole`, `TPTOnePoleStereo`
  * `src/src/lib.rs`                — `Settings`, `State`, `Delay::new`, `Delay::process`

Machine floats (`f32`/`f64`) are modelled as real numbers (so the `self.b as f32`
narrowing cast is the identity), Rust panics are modelled as `none` of an
`Option`-valued embedding, and in-place mutation is modelled by explicit state
passing: `Delay::process(&mut self, input, output)` becomes a function returning
the updated output buffer and the updated `Delay`.
-/

namespace AychDelay

/-- Filter mode enumeration from `src/src/filters/mod.rs`. -/
inductive Mode where
  | LOWPASS
  | HIGHPASS
  | ALLPASS
deriving DecidableEq

/-- `MIN_FREQ` from `tptonepole.rs`. -/
def MIN_FREQ : ℝ := 5

/-- `MAX_FREQ` from `tptonepole.rs`. -/
def MAX_FREQ : ℝ := 22000

/-- `NORMALIZED_FREQ_LIMIT` from `tptonepole.rs`. -/
noncomputable def NORMALIZED_FREQ_LIMIT : ℝ := 49 / 100

/-- `get_coefficient` from `tptonepole.rs`:
`wd = 2*PI*freq_hz; t = 1/sample_rate; wa = (2/t)*tan(wd*t/2); g = wa*t/2; g/(1+g)`. -/
noncomputable def get_coefficient (sample_rate freq_hz : ℝ) : ℝ :=
  let wd := 2 * Real.pi * freq_hz
  let t := 1 / sample_rate
  let wa := (2 / t) * Real.tan (wd * t / 2)
  let g := wa * t / 2
  g / (1 + g)

/-- `TPTOnePole` from `tptonepole.rs`: mode, coefficient `b : f64`, state `z1 : f32`. -/
structure TPTOnePole where
  mode : Mode
  b : ℝ
  z1 : ℝ

/-- `TPTOnePole::new`: clamps the frequency via `freq_hz.max(MIN_FREQ).min(MAX_FREQ *
NORMALIZED_FREQ_LIMIT)` and derives the coefficient; integrator state starts at 0. -/
noncomputable def TPTOnePole.new (mode : Mode) (sample_rate freq_hz : ℝ) : TPTOnePole :=
  let freq_hz := min (max freq_hz MIN_FREQ) (MAX_FREQ * NORMALIZED_FREQ_LIMIT)
  { mode := mode, b := get_coefficient sample_rate freq_hz, z1 := 0 }

/-- `TPTOnePole::process_lpf`: `vn = (input - z1)*b; lpf = vn + z1; z1 <- vn + lpf`;
returns the output together with the updated filter. -/
noncomputable def TPTOnePole.process_lpf (f : TPTOnePole) (input : ℝ) : ℝ × TPTOnePole :=
  let vn := (input - f.z1) * f.b
  let lpf := vn + f.z1
  (lpf, { f with z1 := vn + lpf })

/-- `TPTOnePole::process_hpf`: `input - process_lpf(input)` (the lpf call updates `z1`). -/
noncomputable def TPTOnePole.process_hpf (f : TPTOnePole) (input : ℝ) : ℝ × TPTOnePole :=
  let r := f.process_lpf input
  (input - r.1, r.2)

/-- `TPTOnePole::process_apf`: `lpf - hpf` where `hpf = input - lpf`. -/
noncomputable def TPTOnePole.process_apf (f : TPTOnePole) (input : ℝ) : ℝ × TPTOnePole :=
  let r := f.process_lpf input
  (r.1 - (input - r.1), r.2)

/-- `Filter::process for TPTOnePole`: dispatch on the mode. -/
noncomputable def TPTOnePole.process (f : TPTOnePole) (input : ℝ) : ℝ × TPTOnePole :=
  match f.mode with
  | Mode.LOWPASS => f.process_lpf input
  | Mode.HIGHPASS => f.process_hpf input
  | Mode.ALLPASS => f.process_apf input

/-- `TPTOnePoleStereo`: two independent per-channel filters. -/
structure TPTOnePoleStereo where
  left : TPTOnePole
  right : TPTOnePole

/-- `TPTOnePoleStereo::new`: both channels get the same mode, rate and cutoff. -/
noncomputable def TPTOnePoleStereo.new (mode : Mode) (sample_rate freq_hz : ℝ) :
    TPTOnePoleStereo :=
  { left := TPTOnePole.new mode sample_rate freq_hz
    right := TPTOnePole.new mode sample_rate freq_hz }

/-- `TPTOnePoleStereo::process`: each channel through its own filter. -/
noncomputable def TPTOnePoleStereo.process (f : TPTOnePoleStereo) (input : ℝ × ℝ) :
    (ℝ × ℝ) × TPTOnePoleStereo :=
  let l := f.left.process input.1
  let r := f.right.process input.2
  ((l.1, r.1), { left := l.2, right := r.2 })

/-- `SAMPLE_RATE` from `lib.rs`. -/
def SAMPLE_RATE : ℝ := 44100

/-- `Settings` from `lib.rs`. -/
structure Settings where
  delay_time : ℝ
  output_level : ℝ
  feedback : ℝ
  ping_pong : Bool
  width : ℝ
  phase_reverse : Bool
  lowpass_filter : ℝ
  highpass_filter : ℝ
  dry_wet_mix : ℝ

/-- `Settings::default` from `lib.rs`. -/
noncomputable def Settings.default : Settings :=
  { delay_time := 250
    output_level := 1
    feedback := 8 / 10
    ping_pong := true
    width := 1
    phase_reverse := true
    lowpass_filter := 5000
    highpass_filter := 500
    dry_wet_mix := 1 / 2 }

/-- `State` from `lib.rs`: delay buffer of stereo pairs, cursor, and the two filters. -/
structure State where
  delay_buffer : List (ℝ × ℝ)
  delay_buffer_index : ℕ
  lowpass_filter : TPTOnePoleStereo
  highpass_filter : TPTOnePoleStereo

/-- `Delay` from `lib.rs`. -/
structure Delay where
  settings : Settings
  state : State

/-- The Rust `expr as usize` conversion for a (real-valued model of a) float:
truncation toward zero, saturating at 0 for negative values. -/
noncomputable def floatToUsize (x : ℝ) : ℕ := (Int.floor x).toNat

/-- `Delay::new` from `lib.rs`: the delay buffer holds
`(settings.delay_time / 1000.0) * SAMPLE_RATE as usize` zero pairs, cursor 0, and
the two filter pairs are built at `SAMPLE_RATE` from the configured cutoffs.
No validation is performed. -/
noncomputable def Delay.new (settings : Settings) : Delay :=
  let delay_buffer_size := settings.delay_time / 1000 * SAMPLE_RATE
  { settings := settings
    state :=
      { delay_buffer := List.replicate (floatToUsize delay_buffer_size) ((0 : ℝ), (0 : ℝ))
        delay_buffer_index := 0
        lowpass_filter := TPTOnePoleStereo.new Mode.LOWPASS SAMPLE_RATE settings.lowpass_filter
        highpass_filter :=
          TPTOnePoleStereo.new Mode.HIGHPASS SAMPLE_RATE settings.highpass_filter } }

/-- The `input.chunks(2).map(|c| (c[0], c[1])).collect()` conversion in `Delay::process`.
`chunks(2)` yields a final chunk of length 1 when the input length is odd, and `c[1]`
then panics (index out of bounds), modelled as `none`. -/
def toStereo : List ℝ → Option (List (ℝ × ℝ))
  | [] => some []
  | [_] => none
  | a :: b :: rest => (toStereo rest).map (fun l => (a, b) :: l)

/-- The feedback-path portion of one iteration of the `Delay::process` loop:
read the delay buffer at the cursor (panic when out of range, e.g. a zero-length
buffer), scale by `feedback`, negate when `phase_reverse`, then run the lowpass and
highpass stereo filters. Returns the step-5 `delay_sample` value with the updated
filters. -/
noncomputable def feedbackPath (s : Settings) (st : State) :
    Option ((ℝ × ℝ) × TPTOnePoleStereo × TPTOnePoleStereo) := do
  let delay_sample ← st.delay_buffer[st.delay_buffer_index]?
  let delay_sample := (delay_sample.1 * s.feedback, delay_sample.2 * s.feedback)
  let delay_sample :=
    if s.phase_reverse then (-delay_sample.1, -delay_sample.2) else delay_sample
  let lpr := st.lowpass_filter.process delay_sample
  let hpr := st.highpass_filter.process lpr.1
  some (hpr.1, lpr.2, hpr.2)

/-- One iteration of the `Delay::process` while-loop, minus the output-buffer
writes: feedback path, ping-pong (or plain) store into the delay buffer, the
dry/wet mix, output level, and the cursor advance `(index + 1) % len`.
Returns the produced output pair and the updated `State`. -/
noncomputable def processPairStep (s : Settings) (st : State) (input_sample : ℝ × ℝ) :
    Option ((ℝ × ℝ) × State) := do
  let fb ← feedbackPath s st
  let delay_sample := fb.1
  let stored :=
    if s.ping_pong then
      let width := s.width / 2 + 1 / 2
      let pp_input := (input_sample.1 * (1 - width), input_sample.2 * width)
      let pp_delay :=
        (delay_sample.1 * (1 - width) + delay_sample.2 * width,
         delay_sample.2 * (1 - width) + delay_sample.1 * width)
      (pp_input.1 + pp_delay.1, pp_input.2 + pp_delay.2)
    else
      (input_sample.1 + delay_sample.1, input_sample.2 + delay_sample.2)
  let delay_buffer := st.delay_buffer.set st.delay_buffer_index stored
  let out :=
    ((1 - s.dry_wet_mix) * input_sample.1 + s.dry_wet_mix * delay_sample.1,
     (1 - s.dry_wet_mix) * input_sample.2 + s.dry_wet_mix * delay_sample.2)
  let out := (out.1 * s.output_level, out.2 * s.output_level)
  let delay_buffer_index := (st.delay_buffer_index + 1) % delay_buffer.length
  some (out,
    { delay_buffer := delay_buffer
      delay_buffer_index := delay_buffer_index
      lowpass_filter := fb.2.1
      highpass_filter := fb.2.2 })

/-- The `while input_index < input_stereo.len() && output_index < output.len()` loop
of `Delay::process`. The `output_index` counter counts stereo *pairs* but is compared
against `output.len()` which counts flat *samples*; the writes
`output[output_index * 2]` and `output[output_index * 2 + 1]` panic (`none`) when out
of range. -/
noncomputable def processLoop (s : Settings) (st : State) (input_stereo : List (ℝ × ℝ))
    (output : List ℝ) (output_index : ℕ) : Option (List ℝ × State) :=
  match input_stereo with
  | [] => some (output, st)
  | input_sample :: rest =>
    if output_index < output.length then do
      let r ← processPairStep s st input_sample
      if output_index * 2 + 1 < output.length then
        processLoop s r.2 rest
          ((output.set (output_index * 2) r.1.1).set (output_index * 2 + 1) r.1.2)
          (output_index + 1)
      else
        none
    else
      some (output, st)

/-- `Delay::process` from `lib.rs`: convert the input to stereo pairs (panicking on an
odd-length input), then run the processing loop from indices 0. The updated output
buffer and the updated `Delay` are returned. -/
noncomputable def Delay.process (d : Delay) (input output : List ℝ) :
    Option (List ℝ × Delay) := do
  let input_stereo ← toStereo input
  let r ← processLoop d.settings d.state input_stereo output 0
  some (r.1, { d with state := r.2 })

/-! Concrete configurations used by the claim theorems below. -/

/-- Default settings with `delay_time = 0` ms (a zero-length delay line). -/
noncomputable def zeroTimeSettings : Settings := { Settings.default with delay_time := 0 }

/-- Default settings with `delay_time = 0.9` ms, whose buffer size
`0.9 / 1000 * 44100 = 39.69` sits above the halfway point between 39 and 40. -/
noncomputable def pointNineSettings : Settings := { Settings.default with delay_time := 9 / 10 }

/-- Default settings with a 2-pair delay buffer (`delay_time = 0.05` ms, so
`0.05 / 1000 * 44100 = 2.205`, truncated to 2) and neutral mix parameters. -/
noncomputable def twoPairSettings : Settings :=
  { Settings.default with
      delay_time := 1 / 20
      feedback := 0
      ping_pong := false
      width := 0
      phase_reverse := false
      output_level := 1
      dry_wet_mix := 0 }

/-- The two-pair buffer size computation: `0.05 / 1000 * 44100 = 2.205` truncates to 2. -/
theorem twoPair_size : (⌊(1 / 20 : ℝ) / 1000 * SAMPLE_RATE⌋).toNat = 2 := by
  rw [show ⌊(1 / 20 : ℝ) / 1000 * SAMPLE_RATE⌋ = 2 by
    rw [SAMPLE_RATE, Int.floor_eq_iff]; norm_num]
  rfl

/-- Evaluation of `Delay.new` once the buffer size is known. -/
theorem new_eval (s : Settings) (n : ℕ)
    (h : (⌊s.delay_time / 1000 * SAMPLE_RATE⌋).toNat = n) :
    Delay.new s =
      { settings := s
        state :=
          { delay_buffer := List.replicate n ((0 : ℝ), (0 : ℝ))
            delay_buffer_index := 0
            lowpass_filter := TPTOnePoleStereo.new Mode.LOWPASS SAMPLE_RATE s.lowpass_filter
            highpass_filter :=
              TPTOnePoleStereo.new Mode.HIGHPASS SAMPLE_RATE s.highpass_filter } } := by
  simp only [Delay.new, floatToUsize]
  rw [h]

/-- C1. The spec claims `Delay::process` produces exactly
`min(len(input)/2, len(output)/2)` pairs, writing only in-range output entries. In the
code the loop guard compares the pair counter `output_index` against `output.len()`
measured in flat samples, so with 2 input pairs and a 2-sample (1-pair) output buffer
a second iteration starts and the write `output[2]` is out of bounds: the call
panics (`none`) instead of producing 1 pair. -/
theorem c1_output_bound_panic :
    Delay.process (Delay.new twoPairSettings) [1, 2, 3, 4] [0, 0] = none := by
  rw [new_eval twoPairSettings 2 twoPair_size]
  norm_num [Delay.process, toStereo, processLoop, processPairStep, feedbackPath,
    TPTOnePoleStereo.new, TPTOnePoleStereo.process, TPTOnePole.new, TPTOnePole.process,
    TPTOnePole.process_lpf, TPTOnePole.process_hpf, twoPairSettings, Settings.default,
    List.replicate]

/-- C2. The spec claims an odd-length input has its trailing partial sample ignored with
no out-of-bounds read. In the code, `input.chunks(2).map(|c| (c[0], c[1]))` panics on the
final 1-element chunk (`c[1]` is out of bounds): processing `[1]` fails (`none`), whereas
processing the even prefix `[]` succeeds unchanged. -/
theorem c2_odd_input_panic :
    Delay.process (Delay.new Settings.default) [1] [] = none ∧
    Delay.process (Delay.new Settings.default) [] [] =
      some ([], Delay.new Settings.default) := by
  constructor
  · simp [Delay.process, toStereo]
  · simp [Delay.process, toStereo, processLoop]

/-- C3. The spec claims a configuration with `delay_time ≤ 0` is rejected at
construction, so a zero-length delay line can never exist. In the code, `Delay::new`
performs no validation: with `delay_time = 0` it succeeds and returns a `Delay` whose
buffer has length 0, and the first `process` call on actual input then panics
(out-of-bounds read of the empty buffer), modelled as `none`. -/
theorem c3_no_construction_rejection :
    (Delay.new zeroTimeSettings).state.delay_buffer.length = 0 ∧
    Delay.process (Delay.new zeroTimeSettings) [1, 2] [0, 0] = none := by
  have hfloor : ⌊(0 : ℝ) / 1000 * SAMPLE_RATE⌋ = 0 := by
    norm_num [SAMPLE_RATE]
  constructor
  · simp [Delay.new, floatToUsize, zeroTimeSettings, Settings.default, hfloor]
  · simp [Delay.process, toStereo, processLoop, processPairStep, feedbackPath, Delay.new,
      floatToUsize, zeroTimeSettings, Settings.default, hfloor]

/-- C6 counterexample. The spec claims the buffer length is
`round(delay_time / 1000 * sample_rate)`. With `delay_time = 0.9` ms the product is
`39.69`: rounding gives 40, but the code's `as usize` cast truncates to 39. -/
theorem c6_counterexample_truncation :
    (Delay.new pointNineSettings).state.delay_buffer.length = 39 ∧
    round (pointNineSettings.delay_time / 1000 * SAMPLE_RATE) = 40 ∧
    (Delay.new pointNineSettings).state.delay_buffer.length ≠
      (round (pointNineSettings.delay_time / 1000 * SAMPLE_RATE)).toNat := by
  have hfloor : ⌊(9 / 10 : ℝ) / 1000 * SAMPLE_RATE⌋ = 39 := by
    rw [SAMPLE_RATE, Int.floor_eq_iff]; norm_num
  have h1 : (Delay.new pointNineSettings).state.delay_buffer.length = 39 := by
    simp [Delay.new, floatToUsize, pointNineSettings, Settings.default, hfloor]
  have h2 : round (pointNineSettings.delay_time / 1000 * SAMPLE_RATE) = 40 := by
    rw [round_eq]
    have : (pointNineSettings.delay_time / 1000 * SAMPLE_RATE : ℝ) + 1 / 2 = 4019 / 100 := by
      norm_num [pointNineSettings, Settings.default, SAMPLE_RATE]
    rw [this, Int.floor_eq_iff]; norm_num
  refine ⟨h1, h2, ?_⟩
  rw [h1, h2]
  decide

/-- C6 amended. The delay buffer allocated by `Delay::new` has length
`trunc(delay_time / 1000 * 44100)` (truncation toward zero, i.e. `⌊·⌋.toNat`), is
all zero-initialized, and the cursor starts at 0. -/
theorem c6_amended_buffer_truncated_length (s : Settings) :
    (Delay.new s).state.delay_buffer =
      List.replicate (Int.toNat ⌊s.delay_time / 1000 * SAMPLE_RATE⌋) ((0 : ℝ), (0 : ℝ)) ∧
    (Delay.new s).state.delay_buffer_index = 0 :=
  ⟨rfl, rfl⟩

/-- `get_coefficient` in closed form: with `t = 1/sample_rate` the prewarping cancels to
`g = tan(pi * freq / sample_rate)` and the coefficient is `g / (1 + g)`. -/
theorem get_coefficient_tan (sr f : ℝ) (h : sr ≠ 0) :
    get_coefficient sr f =
      Real.tan (Real.pi * f / sr) / (1 + Real.tan (Real.pi * f / sr)) := by
  simp only [get_coefficient]
  rw [show 2 * Real.pi * f * (1 / sr) / 2 = Real.pi * f / sr by ring]
  rw [show 2 / (1 / sr) * Real.tan (Real.pi * f / sr) * (1 / sr) / 2 =
      Real.tan (Real.pi * f / sr) by field_simp; ring]

/-- C8 counterexample. The spec claims `0 < b < 1` for every `sample_rate > 0` after
clamping the cutoff to `[5, 10780]`. At `sample_rate = 8` and requested cutoff `0` the
clamped cutoff is 5, the prewarping angle is `5π/8 > π/2`, `tan(5π/8) < -1`, and the
derived coefficient `b = g/(1+g)` exceeds 1. -/
theorem c8_counterexample_low_rate :
    ¬ (0 < (TPTOnePole.new Mode.LOWPASS 8 0).b ∧ (TPTOnePole.new Mode.LOWPASS 8 0).b < 1) := by
  have hclamp : min (max (0 : ℝ) MIN_FREQ) (MAX_FREQ * NORMALIZED_FREQ_LIMIT) = 5 := by
    rw [max_eq_right (by norm_num [MIN_FREQ])]
    rw [min_eq_left (by norm_num [MIN_FREQ, MAX_FREQ, NORMALIZED_FREQ_LIMIT])]
    norm_num [MIN_FREQ]
  have hb : (TPTOnePole.new Mode.LOWPASS 8 0).b =
      Real.tan (Real.pi * 5 / 8) / (1 + Real.tan (Real.pi * 5 / 8)) := by
    simp only [TPTOnePole.new, hclamp]
    exact get_coefficient_tan 8 5 (by norm_num)
  have hpi := Real.pi_pos
  have htri : Real.tan (Real.pi * 5 / 8) = - Real.tan (3 * Real.pi / 8) := by
    calc Real.tan (Real.pi * 5 / 8)
        = Real.tan (-(3 * Real.pi / 8) + Real.pi) := by
          rw [show Real.pi * 5 / 8 = -(3 * Real.pi / 8) + Real.pi by ring]
      _ = Real.tan (-(3 * Real.pi / 8)) := Real.tan_periodic _
      _ = - Real.tan (3 * Real.pi / 8) := Real.tan_neg _
  have hmono : Real.tan (Real.pi / 4) < Real.tan (3 * Real.pi / 8) := by
    apply Real.tan_lt_tan_of_nonneg_of_lt_pi_div_two
    · linarith
    · linarith
    · linarith
  rw [Real.tan_pi_div_four] at hmono
  have hlt : Real.tan (Real.pi * 5 / 8) < -1 := by rw [htri]; linarith
  have hden : 1 + Real.tan (Real.pi * 5 / 8) < 0 := by linarith
  rintro ⟨-, h2⟩
  rw [hb] at h2
  have hgt : 1 < Real.tan (Real.pi * 5 / 8) / (1 + Real.tan (Real.pi * 5 / 8)) := by
    rw [lt_div_iff_of_neg hden]
    linarith
  linarith

/-- C8 amended. For every mode, every requested cutoff, and every
`sample_rate > 21560` (twice the upper clamp bound 10780 — in particular the design rate
44100), the derived coefficient satisfies `0 < b < 1`: the clamped cutoff then maps to a
prewarping angle in `(0, π/2)` where `tan` is positive. -/
theorem c8_amended_coefficient_bounds (m : Mode) (sr f : ℝ) (h : 21560 < sr) :
    0 < (TPTOnePole.new m sr f).b ∧ (TPTOnePole.new m sr f).b < 1 := by
  have hsr : (0 : ℝ) < sr := by linarith
  set c := min (max f MIN_FREQ) (MAX_FREQ * NORMALIZED_FREQ_LIMIT) with hc
  have hc5 : (5 : ℝ) ≤ c := by
    rw [hc]
    apply le_min
    · exact le_trans (by norm_num [MIN_FREQ]) (le_max_right f MIN_FREQ)
    · norm_num [MAX_FREQ, NORMALIZED_FREQ_LIMIT]
  have hcU : c ≤ 10780 := by
    rw [hc]
    exact le_trans (min_le_right _ _) (by norm_num [MAX_FREQ, NORMALIZED_FREQ_LIMIT])
  have hpi := Real.pi_pos
  have hθpos : 0 < Real.pi * c / sr := div_pos (mul_pos hpi (by linarith)) hsr
  have hθlt : Real.pi * c / sr < Real.pi / 2 := by
    rw [div_lt_div_iff₀ hsr (by norm_num : (0 : ℝ) < 2)]
    nlinarith
  have htan : 0 < Real.tan (Real.pi * c / sr) :=
    Real.tan_pos_of_pos_of_lt_pi_div_two hθpos hθlt
  have hb : (TPTOnePole.new m sr f).b =
      Real.tan (Real.pi * c / sr) / (1 + Real.tan (Real.pi * c / sr)) := by
    simp only [TPTOnePole.new, ← hc]
    exact get_coefficient_tan sr c (ne_of_gt hsr)
  rw [hb]
  constructor
  · exact div_pos htan (by linarith)
  · rw [div_lt_one (by linarith)]
    linarith

/-- C8 witness: at the design rate 44100 and requested cutoff 5000 the amended bounds
hold. -/
theorem c8_witness :
    0 < (TPTOnePole.new Mode.LOWPASS 44100 5000).b ∧
      (TPTOnePole.new Mode.LOWPASS 44100 5000).b < 1 :=
  c8_amended_coefficient_bounds Mode.LOWPASS 44100 5000 (by norm_num)

/-- Drive a single-channel filter over a list of input samples, collecting the outputs
(threading the mutated `z1` state from sample to sample). -/
noncomputable def runFilter (f : TPTOnePole) : List ℝ → List ℝ
  | [] => []
  | x :: xs =>
    let r := f.process x
    r.1 :: runFilter r.2 xs

/-- A highpass and a lowpass `TPTOnePole` with the same coefficient and the same state
produce outputs summing to the input, sample by sample: the highpass output is computed
as input minus the lowpass path and both integrator states evolve identically. -/
theorem runFilter_hp_lp (b : ℝ) : ∀ (xs : List ℝ) (z : ℝ),
    List.zipWith (fun a c => a + c)
      (runFilter { mode := Mode.HIGHPASS, b := b, z1 := z } xs)
      (runFilter { mode := Mode.LOWPASS, b := b, z1 := z } xs) = xs
  | [], _ => rfl
  | x :: xs, z => by
    have ih := runFilter_hp_lp b xs ((x - z) * b + ((x - z) * b + z))
    simp only [runFilter, TPTOnePole.process, TPTOnePole.process_hpf, TPTOnePole.process_lpf,
      List.zipWith_cons_cons]
    rw [show x - ((x - z) * b + z) + ((x - z) * b + z) = x by ring, ih]

/-- C9. For every sample rate, cutoff and input sequence, a HIGHPASS-mode and a
LOWPASS-mode `TPTOnePole` built alike (both starting from `z1 = 0`) satisfy
`highpass(x) + lowpass(x) = x` at every sample (exact in the real-number model of the
float arithmetic). -/
theorem c9_complementarity (sr fr : ℝ) (xs : List ℝ) :
    List.zipWith (fun a c => a + c)
      (runFilter (TPTOnePole.new Mode.HIGHPASS sr fr) xs)
      (runFilter (TPTOnePole.new Mode.LOWPASS sr fr) xs) = xs := by
  simp only [TPTOnePole.new]
  exact runFilter_hp_lp _ xs 0

/-- `feedbackPath` reads only `feedback` and `phase_reverse` from the settings, so it is
unchanged by flipping `ping_pong`. -/
theorem feedbackPath_ping_pong (s : Settings) (st : State) (pp : Bool) :
    feedbackPath { s with ping_pong := pp } st = feedbackPath s st := rfl

/-- C5. The value blended into the output (`out = in·(1−dry_wet_mix) + delayed·dry_wet_mix`,
then scaled by `output_level`) is the step-5 feedback-scaled/phase-adjusted/filtered
`delay_sample` produced by the feedback path, not the ping-pong remix stored into the
delay line; flipping `ping_pong` never changes the current output pair. -/
theorem c5_output_uses_filtered_value (s : Settings) (st : State) (inp : ℝ × ℝ)
    (D : ℝ × ℝ) (fs : TPTOnePoleStereo × TPTOnePoleStereo)
    (h : feedbackPath s st = some (D, fs)) :
    (processPairStep s st inp).map Prod.fst =
      some (((1 - s.dry_wet_mix) * inp.1 + s.dry_wet_mix * D.1) * s.output_level,
            ((1 - s.dry_wet_mix) * inp.2 + s.dry_wet_mix * D.2) * s.output_level) ∧
    (processPairStep { s with ping_pong := true } st inp).map Prod.fst =
      (processPairStep { s with ping_pong := false } st inp).map Prod.fst := by
  have h1 : feedbackPath { s with ping_pong := true } st = some (D, fs) := h
  have h2 : feedbackPath { s with ping_pong := false } st = some (D, fs) := h
  constructor
  · simp [processPairStep, h]
  · simp [processPairStep, h1, h2]

/-- A stereo filter pair with a fixed concrete coefficient and integrator state 0,
used to build concrete states for witnesses. -/
noncomputable def restFilterStereo (m : Mode) : TPTOnePoleStereo :=
  { left := { mode := m, b := 1 / 2, z1 := 0 }
    right := { mode := m, b := 1 / 2, z1 := 0 } }

/-- A concrete one-pair engine state with a zeroed delay buffer and filters at rest. -/
noncomputable def restState : State :=
  { delay_buffer := [(0, 0)]
    delay_buffer_index := 0
    lowpass_filter := restFilterStereo Mode.LOWPASS
    highpass_filter := restFilterStereo Mode.HIGHPASS }

/-- C5 witness: at a concrete state and input pair, the output is the wet mix of the
filtered feedback value and is independent of `ping_pong`. -/
theorem c5_witness :
    (processPairStep twoPairSettings restState (1, 2)).map Prod.fst =
      some (((1 - twoPairSettings.dry_wet_mix) * 1 + twoPairSettings.dry_wet_mix * 0) *
              twoPairSettings.output_level,
            ((1 - twoPairSettings.dry_wet_mix) * 2 + twoPairSettings.dry_wet_mix * 0) *
              twoPairSettings.output_level) ∧
    (processPairStep { twoPairSettings with ping_pong := true } restState (1, 2)).map
        Prod.fst =
      (processPairStep { twoPairSettings with ping_pong := false } restState (1, 2)).map
        Prod.fst :=
  c5_output_uses_filtered_value twoPairSettings restState (1, 2) (0, 0)
    (restFilterStereo Mode.LOWPASS, restFilterStereo Mode.HIGHPASS)
    (by simp [feedbackPath, restState, restFilterStereo, twoPairSettings, Settings.default,
      TPTOnePoleStereo.process, TPTOnePole.process, TPTOnePole.process_lpf,
      TPTOnePole.process_hpf])

/-- C7 counterexample. The spec claims `ping_pong=true, width=0` behaves identically
(outputs and delay-buffer contents) to `ping_pong=false`. Feeding the single pair
`(1, 0)` into two such fresh 2-pair delays (feedback 0, so the filter coefficients are
irrelevant): the ping-pong engine stores `(0.5, 0)` into the delay line (half the input),
the plain engine stores `(1, 0)` — the buffer contents differ far beyond any
floating-point tolerance. -/
theorem c7_counterexample_width_zero :
    (Delay.process (Delay.new { twoPairSettings with ping_pong := true }) [1, 0]
        [0, 0]).map (fun r => r.2.state.delay_buffer) ≠
      (Delay.process (Delay.new twoPairSettings) [1, 0] [0, 0]).map
        (fun r => r.2.state.delay_buffer) := by
  have h1 : (Delay.process (Delay.new { twoPairSettings with ping_pong := true }) [1, 0]
      [0, 0]).map (fun r => r.2.state.delay_buffer) =
      some [((1 : ℝ) / 2, (0 : ℝ)), (0, 0)] := by
    rw [new_eval { twoPairSettings with ping_pong := true } 2 twoPair_size]
    norm_num [Delay.process, toStereo, processLoop, processPairStep, feedbackPath,
      twoPairSettings, Settings.default, TPTOnePoleStereo.new, TPTOnePoleStereo.process,
      TPTOnePole.new, TPTOnePole.process, TPTOnePole.process_lpf, TPTOnePole.process_hpf,
      List.replicate]
  have h2 : (Delay.process (Delay.new twoPairSettings) [1, 0] [0, 0]).map
      (fun r => r.2.state.delay_buffer) = some [((1 : ℝ), (0 : ℝ)), (0, 0)] := by
    rw [new_eval twoPairSettings 2 twoPair_size]
    norm_num [Delay.process, toStereo, processLoop, processPairStep, feedbackPath,
      twoPairSettings, Settings.default, TPTOnePoleStereo.new, TPTOnePoleStereo.process,
      TPTOnePole.new, TPTOnePole.process, TPTOnePole.process_lpf, TPTOnePole.process_hpf,
      List.replicate]
  rw [h1, h2]
  norm_num

/-- C7 amended. With `width = 0` the ping-pong mix weight is `w = 0.5`; the per-step
output pair coincides with the `ping_pong=false` output, but the value stored into the
delay line does not: ping-pong stores half the input sample plus the average of the two
delayed channels in each slot, whereas the plain engine stores the input plus its own
channel's delayed sample — so ping-pong at zero width does not reduce to plain symmetric
feedback. -/
theorem c7_amended_width_zero_mono_average (s : Settings) (st : State) (inp D : ℝ × ℝ)
    (fs : TPTOnePoleStereo × TPTOnePoleStereo) (hw : s.width = 0)
    (h : feedbackPath s st = some (D, fs)) :
    (processPairStep { s with ping_pong := true } st inp).map Prod.fst =
      (processPairStep { s with ping_pong := false } st inp).map Prod.fst ∧
    (processPairStep { s with ping_pong := true } st inp).map
        (fun r => r.2.delay_buffer) =
      some (st.delay_buffer.set st.delay_buffer_index
        ((inp.1 + D.1 + D.2) / 2, (inp.2 + D.1 + D.2) / 2)) ∧
    (processPairStep { s with ping_pong := false } st inp).map
        (fun r => r.2.delay_buffer) =
      some (st.delay_buffer.set st.delay_buffer_index (inp.1 + D.1, inp.2 + D.2)) := by
  have h1 : feedbackPath { s with ping_pong := true } st = some (D, fs) := h
  have h2 : feedbackPath { s with ping_pong := false } st = some (D, fs) := h
  refine ⟨?_, ?_, ?_⟩
  · simp [processPairStep, h1, h2]
  · simp only [processPairStep, h1, Option.some_bind, Option.map_some, if_true,
      Bool.ite_eq_true_distrib]
    rw [hw]
    norm_num
    congr 1
    simp only [Prod.mk.injEq]
    exact ⟨by ring, by ring⟩
  · simp [processPairStep, h2]

/-- C7 witness: at a concrete state and input pair `(1, 2)` with zero delayed signal,
the two configurations agree on the output, ping-pong stores `(1/2, 1)` and the plain
engine stores `(1, 2)`. -/
theorem c7_witness :
    (processPairStep { twoPairSettings with ping_pong := true } restState (1, 2)).map
        Prod.fst =
      (processPairStep { twoPairSettings with ping_pong := false } restState (1, 2)).map
        Prod.fst ∧
    (processPairStep { twoPairSettings with ping_pong := true } restState (1, 2)).map
        (fun r => r.2.delay_buffer) =
      some (restState.delay_buffer.set restState.delay_buffer_index
        (((1 : ℝ) + 0 + 0) / 2, ((2 : ℝ) + 0 + 0) / 2)) ∧
    (processPairStep { twoPairSettings with ping_pong := false } restState (1, 2)).map
        (fun r => r.2.delay_buffer) =
      some (restState.delay_buffer.set restState.delay_buffer_index
        ((1 : ℝ) + 0, (2 : ℝ) + 0)) :=
  c7_amended_width_zero_mono_average twoPairSettings restState (1, 2) (0, 0)
    (restFilterStereo Mode.LOWPASS, restFilterStereo Mode.HIGHPASS) rfl
    (by simp [feedbackPath, restState, restFilterStereo, twoPairSettings, Settings.default,
      TPTOnePoleStereo.process, TPTOnePole.process, TPTOnePole.process_lpf,
      TPTOnePole.process_hpf])

/-- Settings matching claim C4: `feedback = 0`, `dry_wet_mix = 1`, `ping_pong = false`,
`phase_reverse = false`, `output_level = 1`, with a 2-pair delay buffer. -/
noncomputable def wetSettings : Settings := { twoPairSettings with dry_wet_mix := 1 }

/-- C4 counterexample. The spec claims an impulse through a `feedback = 0`,
`dry_wet_mix = 1` delay produces a non-zero echo one delay-buffer length after the
impulse. The buffer length is 2, yet feeding the unit impulse `(1, 0)` followed by
three zero pairs yields an output that is zero at every sample — including pairs 1 and 2
(one buffer length after the impulse under either read-before-write convention) —
because the code scales the delayed sample by `feedback` before the output tap. -/
theorem c4_counterexample_zero_echo :
    (Delay.new wetSettings).state.delay_buffer.length = 2 ∧
    (Delay.process (Delay.new wetSettings) [1, 0, 0, 0, 0, 0, 0, 0]
        (List.replicate 8 0)).map Prod.fst = some (List.replicate 8 0) := by
  rw [new_eval wetSettings 2 twoPair_size]
  constructor
  · simp
  · norm_num [Delay.process, toStereo, processLoop, processPairStep, feedbackPath,
      wetSettings, twoPairSettings, Settings.default, TPTOnePoleStereo.new,
      TPTOnePoleStereo.process, TPTOnePole.new, TPTOnePole.process, TPTOnePole.process_lpf,
      TPTOnePole.process_hpf, List.replicate]

/-- All four filter integrator states of an engine state are zero. -/
def filtersAtRest (st : State) : Prop :=
  st.lowpass_filter.left.z1 = 0 ∧ st.lowpass_filter.right.z1 = 0 ∧
    st.highpass_filter.left.z1 = 0 ∧ st.highpass_filter.right.z1 = 0

/-- A one-pole filter with zero state maps a zero sample to zero and stays unchanged. -/
theorem process_at_rest (f : TPTOnePole) (h : f.z1 = 0) : f.process 0 = (0, f) := by
  obtain ⟨m, b, z⟩ := f
  simp only at h
  subst h
  cases m <;>
    simp [TPTOnePole.process, TPTOnePole.process_lpf, TPTOnePole.process_hpf,
      TPTOnePole.process_apf]

/-- A stereo filter pair at rest maps the zero pair to zero and stays unchanged. -/
theorem stereo_at_rest (f : TPTOnePoleStereo) (hl : f.left.z1 = 0) (hr : f.right.z1 = 0) :
    f.process (0, 0) = ((0, 0), f) := by
  obtain ⟨l, r⟩ := f
  simp only at hl hr
  simp [TPTOnePoleStereo.process, process_at_rest l hl, process_at_rest r hr]

/-- With `feedback = 0` and filters at rest, the feedback path yields the zero pair and
leaves the filters unchanged. -/
theorem feedbackPath_silent (s : Settings) (st : State) (v : ℝ × ℝ)
    (hf : s.feedback = 0) (hz : filtersAtRest st)
    (hread : st.delay_buffer[st.delay_buffer_index]? = some v) :
    feedbackPath s st = some ((0, 0), st.lowpass_filter, st.highpass_filter) := by
  obtain ⟨h1, h2, h3, h4⟩ := hz
  have e1 := stereo_at_rest st.lowpass_filter h1 h2
  have e2 := stereo_at_rest st.highpass_filter h3 h4
  simp only [Prod.mk_zero_zero] at e1 e2
  simp [feedbackPath, hread, hf, e1, e2]

/-- With `feedback = 0`, `dry_wet_mix = 1` and filters at rest, one processing step
produces the zero output pair and keeps the filters at rest. -/
theorem step_silent (s : Settings) (st : State) (inp out : ℝ × ℝ) (st' : State)
    (hf : s.feedback = 0) (hm : s.dry_wet_mix = 1) (hz : filtersAtRest st)
    (h : processPairStep s st inp = some (out, st')) :
    out = (0, 0) ∧ filtersAtRest st' := by
  cases hread : st.delay_buffer[st.delay_buffer_index]? with
  | none => simp [processPairStep, feedbackPath, hread] at h
  | some v =>
    rw [processPairStep, feedbackPath_silent s st v hf hz hread] at h
    simp [hm, Prod.ext_iff] at h
    obtain ⟨⟨ho1, ho2⟩, hst⟩ := h
    refine ⟨Prod.ext ho1.symm ho2.symm, ?_⟩
    rw [← hst]
    exact ⟨hz.1, hz.2.1, hz.2.2.1, hz.2.2.2⟩

/-- With `feedback = 0` and `dry_wet_mix = 1`, the processing loop can only write zero
samples: if the output buffer starts all-zero and the loop succeeds, the resulting
buffer is all-zero. -/
theorem loop_silent (s : Settings) (hf : s.feedback = 0) (hm : s.dry_wet_mix = 1) :
    ∀ (stereo : List (ℝ × ℝ)) (st : State) (output : List ℝ) (oi : ℕ)
      (res : List ℝ × State), filtersAtRest st → (∀ x ∈ output, x = 0) →
      processLoop s st stereo output oi = some res → ∀ x ∈ res.1, x = 0
  | [], st, output, oi, res, hz, hout, h => by
    simp only [processLoop, Option.some.injEq] at h
    rw [← h]
    exact hout
  | inp :: rest, st, output, oi, res, hz, hout, h => by
    rw [processLoop] at h
    by_cases hoi : oi < output.length
    · rw [if_pos hoi] at h
      cases hstep : processPairStep s st inp with
      | none => rw [hstep] at h; exact Option.noConfusion h
      | some p =>
        rw [hstep] at h
        simp only [Option.bind_eq_bind', Option.some_bind'] at h
        by_cases hb : oi * 2 + 1 < output.length
        · rw [if_pos hb] at h
          obtain ⟨hp0, hpz⟩ := step_silent s st inp p.1 p.2 hf hm hz hstep
          refine loop_silent s hf hm rest p.2 _ (oi + 1) res hpz ?_ h
          intro x hx
          rcases List.mem_or_eq_of_mem_set hx with hx1 | rfl
          · rcases List.mem_or_eq_of_mem_set hx1 with hx2 | rfl
            · exact hout x hx2
            · simp [hp0]
          · simp [hp0]
        · rw [if_neg hb] at h
          exact absurd h (by simp)
    · rw [if_neg hoi] at h
      simp only [Option.some.injEq] at h
      rw [← h]
      exact hout

/-- C4 amended. With `feedback = 0` the delayed sample is zeroed before it reaches the
output tap, so with `dry_wet_mix = 1` a freshly constructed delay produces an output
buffer that is identically zero whenever a call succeeds — the impulse yields no echo at
any offset (and in particular no repeats); an echo one buffer length later requires
nonzero feedback. -/
theorem c4_amended_silent (s : Settings) (input output : List ℝ) (res : List ℝ × Delay)
    (hf : s.feedback = 0) (hm : s.dry_wet_mix = 1) (hout : ∀ x ∈ output, x = 0)
    (h : Delay.process (Delay.new s) input output = some res) : ∀ x ∈ res.1, x = 0 := by
  rw [Delay.process] at h
  cases hts : toStereo input with
  | none => rw [hts] at h; exact Option.noConfusion h
  | some pairs =>
    rw [hts] at h
    simp only [Option.bind_eq_bind', Option.some_bind'] at h
    cases hloop : processLoop (Delay.new s).settings (Delay.new s).state pairs output 0 with
    | none => rw [hloop] at h; exact Option.noConfusion h
    | some r =>
      rw [hloop] at h
      simp only [Option.bind_eq_bind', Option.some_bind', Option.some.injEq] at h
      have hz : filtersAtRest (Delay.new s).state := by
        simp [Delay.new, filtersAtRest, TPTOnePoleStereo.new, TPTOnePole.new]
      have hall := loop_silent (Delay.new s).settings hf hm pairs (Delay.new s).state
        output 0 r hz hout hloop
      rw [← h]
      exact fun x hx => hall x hx

/-- C4 witness: a unit impulse into a fresh `wetSettings` delay with an all-zero output
buffer succeeds and produces only zeros. -/
theorem c4_witness :
    ∃ res, Delay.process (Delay.new wetSettings) [1, 0] [0, 0] = some res ∧
      ∀ x ∈ res.1, x = 0 := by
  obtain ⟨res, hres⟩ :
      ∃ res, Delay.process (Delay.new wetSettings) [1, 0] [0, 0] = some res := by
    apply Option.isSome_iff_exists.mp
    rw [new_eval wetSettings 2 twoPair_size]
    norm_num [Delay.process, toStereo, processLoop, processPairStep, feedbackPath,
      wetSettings, twoPairSettings, Settings.default, TPTOnePoleStereo.new,
      TPTOnePoleStereo.process, TPTOnePole.new, TPTOnePole.process, TPTOnePole.process_lpf,
      TPTOnePole.process_hpf, List.replicate]
  exact ⟨res, hres,
    c4_amended_silent wetSettings [1, 0] [0, 0] res rfl rfl (by norm_num) hres⟩

/-- On an even-length input, the chunk conversion succeeds and yields one pair per two
samples. -/
theorem toStereo_even : ∀ (l : List ℝ), l.length % 2 = 0 →
    ∃ ps, toStereo l = some ps ∧ ps.length = l.length / 2
  | [], _ => ⟨[], rfl, rfl⟩
  | [_], h => by simp at h
  | a :: b :: rest, h => by
    obtain ⟨ps, h1, h2⟩ := toStereo_even rest (by simp [List.length_cons] at h ⊢; omega)
    refine ⟨(a, b) :: ps, ?_, ?_⟩
    · rw [toStereo, h1]
      rfl
    · simp [h2, List.length_cons]
      omega

/-- When the cursor is in range, one processing step succeeds, preserves the delay-buffer
length, and leaves the cursor in range. -/
theorem processPairStep_some (s : Settings) (st : State) (inp : ℝ × ℝ)
    (h : st.delay_buffer_index < st.delay_buffer.length) :
    ∃ r, processPairStep s st inp = some r ∧
      r.2.delay_buffer.length = st.delay_buffer.length ∧
      r.2.delay_buffer_index < r.2.delay_buffer.length := by
  have hread : st.delay_buffer[st.delay_buffer_index]? =
      some st.delay_buffer[st.delay_buffer_index] := List.getElem?_eq_getElem h
  have hlen : (0 : ℕ) < st.delay_buffer.length := lt_of_le_of_lt (Nat.zero_le _) h
  simp only [processPairStep, feedbackPath, hread, Option.bind_eq_bind', Option.some_bind']
  refine ⟨_, rfl, ?_, ?_⟩
  · simp [List.length_set]
  · simp only [List.length_set]
    exact Nat.mod_lt _ hlen

/-- The processing loop succeeds whenever the cursor is in range and all remaining pairs
fit below `output.length`; it preserves the output length and leaves every entry at
index at least `2 * (output_index + pairs)` untouched. -/
theorem loop_frame (s : Settings) :
    ∀ (stereo : List (ℝ × ℝ)) (st : State) (output : List ℝ) (oi : ℕ),
      st.delay_buffer_index < st.delay_buffer.length →
      2 * (oi + stereo.length) ≤ output.length →
      ∃ res, processLoop s st stereo output oi = some res ∧
        res.1.length = output.length ∧
        ∀ j, 2 * (oi + stereo.length) ≤ j → res.1[j]? = output[j]?
  | [], st, output, oi, _, _ =>
    ⟨(output, st), by rw [processLoop], rfl, fun _ _ => rfl⟩
  | inp :: rest, st, output, oi, hidx, hfit => by
    have hlen : (inp :: rest).length = rest.length + 1 := List.length_cons inp rest
    have hoi : oi < output.length := by rw [hlen] at hfit; omega
    have hb : oi * 2 + 1 < output.length := by rw [hlen] at hfit; omega
    obtain ⟨r, hr, hrlen, hridx⟩ := processPairStep_some s st inp hidx
    obtain ⟨res, hres, hreslen, hresfr⟩ := loop_frame s rest r.2
      ((output.set (oi * 2) r.1.1).set (oi * 2 + 1) r.1.2) (oi + 1) hridx
      (by simp only [List.length_set]; rw [hlen] at hfit; omega)
    refine ⟨res, ?_, ?_, ?_⟩
    · rw [processLoop, if_pos hoi, hr]
      simp only [Option.bind_eq_bind', Option.some_bind']
      rw [if_pos hb]
      exact hres
    · rw [hreslen]
      simp [List.length_set]
    · intro j hj
      rw [hresfr j (by rw [hlen] at hj; omega)]
      rw [List.getElem?_set_ne (by rw [hlen] at hj; omega),
        List.getElem?_set_ne (by rw [hlen] at hj; omega)]

/-- C10. When every input pair fits in the output buffer
(`2 * (input.length / 2) ≤ output.length`, with an even-length input so the chunk
conversion succeeds, and a valid cursor as established by construction), `process`
succeeds, leaves the settings untouched, preserves the output length, and leaves every
output entry at index `≥ 2 * (input.length / 2)` with its previous value. -/
theorem c10_frame (d : Delay) (input output : List ℝ)
    (heven : input.length % 2 = 0)
    (hfit : 2 * (input.length / 2) ≤ output.length)
    (hidx : d.state.delay_buffer_index < d.state.delay_buffer.length) :
    ∃ res, Delay.process d input output = some res ∧
      res.2.settings = d.settings ∧
      res.1.length = output.length ∧
      ∀ j, 2 * (input.length / 2) ≤ j → res.1[j]? = output[j]? := by
  obtain ⟨pairs, hts, hplen⟩ := toStereo_even input heven
  obtain ⟨r, hr, hrlen, hrfr⟩ := loop_frame d.settings pairs d.state output 0 hidx
    (by rw [hplen]; simpa using hfit)
  refine ⟨(r.1, { d with state := r.2 }), ?_, rfl, hrlen, ?_⟩
  · rw [Delay.process, hts]
    simp only [Option.bind_eq_bind', Option.some_bind']
    rw [hr, Option.some_bind']
  · intro j hj
    exact hrfr j (by rw [hplen]; simpa using hj)

/-- C10 witness: one input pair into a fresh two-pair delay with a four-sample output
buffer; the trailing two entries keep their previous values and the settings are
unchanged. -/
theorem c10_witness :
    ∃ res, Delay.process (Delay.new twoPairSettings) [1, 2] [5, 6, 7, 8] = some res ∧
      res.2.settings = (Delay.new twoPairSettings).settings ∧
      res.1.length = ([5, 6, 7, 8] : List ℝ).length ∧
      ∀ j, 2 * (([1, 2] : List ℝ).length / 2) ≤ j →
        res.1[j]? = ([5, 6, 7, 8] : List ℝ)[j]? :=
  c10_frame (Delay.new twoPairSettings) [1, 2] [5, 6, 7, 8] (by norm_num) (by norm_num)
    (by rw [new_eval twoPairSettings 2 twoPair_size]; norm_num)

end AychDelay
